import Mathlib

/-
Verification of the `catalyst` exchange bundle layer
(`src/catalyst/exchange/exchange_bundle.py`) against its natural-language
specification.  The Python module is shallowly embedded below: pure helpers
become Lean functions, the mutable reader/writer caches become explicit
association lists threaded through the functions, Python exceptions become
`Except` results, and the external collaborators (trading calendar, bcolz
store, staging locator) are modelled from the specification where their code
is not part of the repository.
-/

namespace Catalyst

/-- A UTC timestamp at minute resolution, mirroring the pandas `Timestamp`
values the module manipulates (the module only ever uses year, month, day,
hour and minute components). -/
structure DT where
  year : Nat
  month : Nat
  day : Nat
  hour : Nat
  minute : Nat
deriving DecidableEq, Repr

/-- Linearisation of a timestamp used to define the chronological order;
for well-formed dates (month in 1..12, day in 1..31, hour < 24,
minute < 60) it is order-isomorphic to the lexicographic order on
components. -/
def DT.key (d : DT) : Nat :=
  (((d.year * 13 + d.month) * 32 + d.day) * 24 + d.hour) * 60 + d.minute

/-- Boolean `<=` on timestamps (pandas timestamp comparison). -/
def DT.leB (a b : DT) : Bool := a.key ≤ b.key

/-- Boolean `<` on timestamps (pandas timestamp comparison). -/
def DT.ltB (a b : DT) : Bool := a.key < b.key

/-- Modelled from the spec: leap-year rule of the proleptic Gregorian
calendar used by the external calendar collaborator. -/
def isLeap (y : Nat) : Bool := (y % 4 == 0 && y % 100 != 0) || y % 400 == 0

/-- Modelled from the spec: number of days in a calendar month, used by the
external `get_month_start_end` helper of `bundle_utils` (not under `src/`). -/
def daysInMonth (y m : Nat) : Nat :=
  if m == 2 then (if isLeap y then 29 else 28)
  else if m == 4 || m == 6 || m == 9 || m == 11 then 30
  else 31

/-- Midnight of the same calendar day (`Timestamp.date`-like truncation). -/
def DT.date (d : DT) : DT := ⟨d.year, d.month, d.day, 0, 0⟩

/-- Python `dt + timedelta(days=1)`: advance one calendar day, keeping the
time of day. -/
def DT.nextDay (d : DT) : DT :=
  if d.day < daysInMonth d.year d.month then ⟨d.year, d.month, d.day + 1, d.hour, d.minute⟩
  else if d.month < 12 then ⟨d.year, d.month + 1, 1, d.hour, d.minute⟩
  else ⟨d.year + 1, 1, 1, d.hour, d.minute⟩

/-- Advance one minute (the minute-frequency period delta). -/
def DT.nextMinute (d : DT) : DT :=
  if d.minute < 59 then ⟨d.year, d.month, d.day, d.hour, d.minute + 1⟩
  else if d.hour < 23 then ⟨d.year, d.month, d.day, d.hour + 1, 0⟩
  else ⟨d.nextDay.year, d.nextDay.month, d.nextDay.day, 0, 0⟩

/-- Modelled from the spec: `get_delta(1, data_frequency)` from the external
`bundle_utils` module (not under `src/`) added to a timestamp: one period
delta, a minute for minute frequency and a day for daily frequency. -/
def addDelta (data_frequency : String) (d : DT) : DT :=
  if data_frequency == "minute" then d.nextMinute else d.nextDay

/-- Modelled from the spec: `get_month_start_end` from the external
`bundle_utils` module (not under `src/`): the raw boundaries of the calendar
month containing `dt` (first day at midnight, last day at 23:59). -/
def get_month_start_end (dt : DT) : DT × DT :=
  (⟨dt.year, dt.month, 1, 0, 0⟩, ⟨dt.year, dt.month, daysInMonth dt.year dt.month, 23, 59⟩)

/-- Modelled from the spec: `get_year_start_end` from the external
`bundle_utils` module (not under `src/`): the raw boundaries of the calendar
year containing `dt`. -/
def get_year_start_end (dt : DT) : DT × DT :=
  (⟨dt.year, 1, 1, 0, 0⟩, ⟨dt.year, 12, 31, 23, 59⟩)

/-- Fuel-driven enumeration of consecutive calendar days `<= e` starting
at `d`. -/
def sessionsFromAux : Nat → DT → DT → List DT
  | 0, _, _ => []
  | n + 1, d, e => if d.leB e then d :: sessionsFromAux n d.nextDay e else []

/-- Modelled from the spec: `calendar.sessions_in_range` of the `OPEN`
(24/7 crypto) trading calendar collaborator — every calendar day is a
session, labelled by its midnight timestamp. -/
def sessions_in_range (s e : DT) : List DT :=
  sessionsFromAux (e.key + 1 - s.date.key) s.date e

/-- An asset (`TradingPair`) as consumed by the module: identity, symbol,
trading lifetime bounds. -/
structure Asset where
  sid : Nat
  symbol : String
  exchange : String
  start_date : DT
  end_minute : Option DT
  end_daily : Option DT
deriving DecidableEq, Repr

/-- Modelled from the spec: the opaque columnar-store reader capability.
Only its coverage oracle is relevant to this layer: `covered sid s e` answers
whether the store fully holds the range `[s, e]` for asset `sid`. -/
structure Reader where
  covered : Nat → DT → DT → Bool

/-- Modelled from the spec: `range_in_bundle(asset, start_dt, end_dt,
reader)` from the external `bundle_utils` module (not under `src/`): the
coverage check, false when no reader is available. -/
def range_in_bundle (asset : Asset) (start_dt end_dt : DT) (reader : Option Reader) : Bool :=
  match reader with
  | none => false
  | some r => r.covered asset.sid start_dt end_dt

/-- A coverage oracle is range-monotone when covering a range implies
covering every sub-range — the defining property of "the store holds every
period in the range". -/
def ReaderMonotone (reader : Option Reader) : Prop :=
  ∀ r, reader = some r →
    ∀ sid s e s' e', DT.leB s s' = true → DT.leB e' e = true →
      r.covered sid s e = true → r.covered sid s' e' = true

/-- Failures of `get_adj_dates`: the intended
`NoDataAvailableOnExchange`, or — when the asset list is empty — Python's
unbound-local failure from evaluating `asset.exchange` in the `raise`
statement after a `for` loop that never ran. -/
inductive AdjErr
  | noDataAvailableOnExchange
  | unboundLocalError
deriving DecidableEq, Repr

/-- The per-frequency asset end bound selected by `get_adj_dates`
(`asset.end_minute if data_frequency == 'minute' else asset.end_daily`). -/
def end_asset_of (data_frequency : String) (a : Asset) : Option DT :=
  if data_frequency == "minute" then a.end_minute else a.end_daily

/-- The `earliest_trade` accumulation loop of `get_adj_dates`: fold over the
assets keeping the smallest `start_date` among assets whose `start_date` is
at or after the calendar's first session. -/
def earliest_trade_fold (calFirst : DT) (assets : List Asset) : Option DT :=
  assets.foldl
    (fun et a =>
      if (match et with
          | none => true
          | some t => DT.ltB a.start_date t) && DT.leB calFirst a.start_date
      then some a.start_date else et)
    none

/-- The `last_entry` accumulation loop of `get_adj_dates`: fold over the
assets keeping the largest non-`None` per-frequency end bound. -/
def last_entry_fold (data_frequency : String) (assets : List Asset) : Option DT :=
  assets.foldl
    (fun le a =>
      match end_asset_of data_frequency a with
      | none => le
      | some ea =>
        if (match le with
            | none => true
            | some t => DT.ltB t ea)
        then some ea else le)
    none

/-- `ExchangeBundle.get_adj_dates(start, end, assets, data_frequency)`:
narrows the caller's optional `[start, end]` to the assets' trading
availability and raises when the result is unset or inverted. -/
def get_adj_dates (calFirst : DT) (start end_ : Option DT) (assets : List Asset)
    (data_frequency : String) : Except AdjErr (DT × DT) :=
  let et := earliest_trade_fold calFirst assets
  let le := last_entry_fold data_frequency assets
  let start' : Option DT :=
    match start with
    | none => et
    | some s =>
      match et with
      | some t => if DT.ltB s t then some t else some s
      | none => some s
  let end' : Option DT :=
    match end_ with
    | none => le
    | some e =>
      match le with
      | some t => if DT.ltB t e then some t else some e
      | none => some e
  let raiseErr : AdjErr :=
    match assets.getLast? with
    | some _ => .noDataAvailableOnExchange
    | none => .unboundLocalError
  match start', end' with
  | some s, some e => if DT.leB e s then .error raiseErr else .ok (s, e)
  | some _, none => .error raiseErr
  | none, _ => .error raiseErr

/-- The deduplication key `label` of `prepare_chunks`: the string
`"YYYY-MM"` for minute frequency, `"YYYY"` otherwise, represented by its
content. -/
inductive PeriodLabel
  | month (y m : Nat)
  | year (y : Nat)
deriving DecidableEq, Repr

/-- A planned ingestion chunk, the dict
`{asset, period_start, period_end, period}` built by `prepare_chunks`. -/
structure Chunk where
  asset : Asset
  period_start : DT
  period_end : DT
  period : PeriodLabel
deriving DecidableEq, Repr

/-- Failures reachable from `prepare_chunks`: the explicit
`InvalidHistoryFrequencyError`, Python `TypeError` from passing a `None`
`asset.end_minute` to `get_month_start_end`/`get_year_start_end`, Python
`IndexError` from `sessions[0]` on an empty session list, a propagated
unbound-local failure of `get_adj_dates`, and exhaustion of the
day-walk fuel (never reached with adequate fuel). -/
inductive PrepErr
  | invalidHistoryFrequency
  | noneTypeError
  | indexError
  | unboundLocalError
  | fuelOut
deriving DecidableEq, Repr

/-- Label of the calendar period containing day `dt`
(`'{}-{:02d}'.format(dt.year, dt.month)` for minute frequency, the year
otherwise). -/
def mkLabel (data_frequency : String) (dt : DT) : PeriodLabel :=
  if data_frequency == "minute" then .month dt.year dt.month else .year dt.year

/-- The frequency dispatch of the `prepare_chunks` loop body: computes the
raw period boundaries for the period containing `dt` and applies the
first/last-period clipping; `none` is the `continue` taken when the asset
has not started trading in this period. For the last-period clip the source
uses `asset.end_minute` in both the minute and the daily branch. -/
def periodBounds (data_frequency : String) (asset : Asset) (first_trading_dt dt : DT) :
    Except PrepErr (Option (DT × DT)) :=
  if data_frequency == "minute" then
    let (period_start, period_end) := get_month_start_end dt
    if DT.ltB period_start first_trading_dt then .ok none
    else
      let (asset_start_month, _) := get_month_start_end first_trading_dt
      let period_start :=
        if asset_start_month == period_start && DT.ltB period_start first_trading_dt
        then first_trading_dt else period_start
      match asset.end_minute with
      | none => .error .noneTypeError
      | some em =>
        let (_, asset_end_month) := get_month_start_end em
        let period_end :=
          if asset_end_month == period_end && DT.ltB em period_end
          then em else period_end
        .ok (some (period_start, period_end))
  else if data_frequency == "daily" then
    let (period_start, period_end) := get_year_start_end dt
    if DT.ltB period_start first_trading_dt then .ok none
    else
      let (asset_start_year, _) := get_year_start_end first_trading_dt
      let period_start :=
        if asset_start_year == period_start && DT.ltB period_start first_trading_dt
        then first_trading_dt else period_start
      match asset.end_minute with
      | none => .error .noneTypeError
      | some em =>
        let (_, asset_end_year) := get_year_start_end em
        let period_end :=
          if asset_end_year == period_end && DT.ltB em period_end
          then em else period_end
        .ok (some (period_start, period_end))
  else .error .invalidHistoryFrequency

/-- The probe start used by the coverage check before emitting a chunk:
currencies do not always start trading at midnight, so the minute branch
probes from `period_start.replace(hour=23, minute=59)`. -/
def probe_start (data_frequency : String) (period_start : DT) : DT :=
  if data_frequency == "minute"
  then ⟨period_start.year, period_start.month, period_start.day, 23, 59⟩
  else period_start

/-- One iteration of the `prepare_chunks` day-walk at day `dt`: label
deduplication, period-bound computation, coverage probe, and conditional
chunk emission. -/
def processDay (reader : Option Reader) (data_frequency : String) (asset : Asset)
    (first_trading_dt dt : DT) (labels : List PeriodLabel) (chunks : List Chunk) :
    Except PrepErr (List PeriodLabel × List Chunk) :=
  let label := mkLabel data_frequency dt
  if labels.contains label then .ok (labels, chunks)
  else
    let labels := labels ++ [label]
    match periodBounds data_frequency asset first_trading_dt dt with
    | .error e => .error e
    | .ok none => .ok (labels, chunks)
    | .ok (some (period_start, period_end)) =>
      let range_start := probe_start data_frequency period_start
      let has_data := range_in_bundle asset range_start period_end reader
      let chunks :=
        if has_data then chunks
        else chunks ++ [⟨asset, period_start, period_end, label⟩]
      .ok (labels, chunks)

/-- The `while dt <= sessions[-1]` day-walk of `prepare_chunks`; every
iteration advances `dt` by one day (both `continue` paths advance before
continuing). -/
def chunkLoop (reader : Option Reader) (data_frequency : String) (asset : Asset)
    (first_trading_dt : DT) :
    Nat → DT → DT → List PeriodLabel → List Chunk → Except PrepErr (List Chunk)
  | 0, _, _, _, _ => .error .fuelOut
  | fuel + 1, dt, last, labels, chunks =>
    if dt.leB last then
      match processDay reader data_frequency asset first_trading_dt dt labels chunks with
      | .error e => .error e
      | .ok (labels', chunks') =>
        chunkLoop reader data_frequency asset first_trading_dt fuel
          dt.nextDay last labels' chunks'
    else .ok chunks

/-- The per-asset outer loop of `prepare_chunks`: adjust the dates for the
single asset (skipping the asset on `NoDataAvailableOnExchange`), compute
its first trading day and the session range, and run the day-walk; the
chunk list accumulates across assets while labels reset per asset. -/
def prepareAssets (calFirst : DT) (reader : Option Reader) (data_frequency : String)
    (start_dt end_dt : Option DT) :
    List Asset → List Chunk → Except PrepErr (List Chunk)
  | [], chunks => .ok chunks
  | asset :: rest, chunks =>
    match get_adj_dates calFirst start_dt end_dt [asset] data_frequency with
    | .error .noDataAvailableOnExchange =>
      prepareAssets calFirst reader data_frequency start_dt end_dt rest chunks
    | .error .unboundLocalError => .error .unboundLocalError
    | .ok (adj_start, adj_end) =>
      let first_trading_dt :=
        if DT.ltB calFirst asset.start_date then asset.start_date else calFirst
      match sessions_in_range adj_start adj_end with
      | [] => .error .indexError
      | d0 :: ds =>
        let last := (d0 :: ds).getLastD d0
        match chunkLoop reader data_frequency asset first_trading_dt
            (last.key + 2 - d0.key) d0 last [] chunks with
        | .error e => .error e
        | .ok chunks' =>
          prepareAssets calFirst reader data_frequency start_dt end_dt rest chunks'

/-- Stable insertion of `x` into a list sorted by the boolean relation
`le`: `x` goes before the first element it compares `le` to. -/
def insertLe (le : α → α → Bool) (x : α) : List α → List α
  | [] => [x]
  | y :: ys => if le x y then x :: y :: ys else y :: insertLe le x ys

/-- Stable ascending sort by the boolean relation `le`, modelling Python's
stable `list.sort`. -/
def sortByLe (le : α → α → Bool) : List α → List α
  | [] => []
  | x :: xs => insertLe le x (sortByLe le xs)

/-- `ExchangeBundle.prepare_chunks(assets, data_frequency, start_dt,
end_dt)`: plan the calendar-aligned chunks missing from the store, sorted
ascending by `period_end`; `reader` is the cached store reader obtained
from `get_reader(data_frequency)`. -/
def prepare_chunks (calFirst : DT) (reader : Option Reader) (assets : List Asset)
    (data_frequency : String) (start_dt end_dt : Option DT) :
    Except PrepErr (List Chunk) :=
  (prepareAssets calFirst reader data_frequency start_dt end_dt assets []).map
    (fun chunks => sortByLe (fun a b => DT.leB a.period_end b.period_end) chunks)

/-- Modelled from the spec: `get_exchange_folder` from the external
`exchange_utils` module (not under `src/`): the per-exchange root folder. -/
def get_exchange_folder (exchangeName : String) : String :=
  "root/" ++ exchangeName

/-- `BUNDLE_NAME_TEMPLATE.format(root=root, frequency=frequency)`:
`'{root}/{frequency}_bundle'`. -/
def bundle_path (root data_frequency : String) : String :=
  root ++ "/" ++ data_frequency ++ "_bundle"

/-- Replacing assignment into a Python-dict-like association list. -/
def dictInsert (k : String) (v : α) (m : List (String × α)) : List (String × α) :=
  (k, v) :: m.filter (fun kv => kv.1 ≠ k)

/-- Python `del m[k]` on a dict-like association list. -/
def dictErase (k : String) (m : List (String × α)) : List (String × α) :=
  m.filter (fun kv => kv.1 ≠ k)

/-- `ExchangeBundle.get_reader(data_frequency, path=None)`.  `openStore`
models constructing `BcolzExchangeBarReader` on a path: `some` a reader on
success, `none` when the constructor raises `IOError`.  The cache maps a
path to `some reader` or to the `None` open-failure marker.  Returns the
reader (or `none`), the updated cache, and the number of store open
attempts made by this call. -/
def get_reader (openStore : String → Option Reader) (exchangeName : String)
    (readers : List (String × Option Reader)) (data_frequency : String)
    (path? : Option String) :
    Option Reader × List (String × Option Reader) × Nat :=
  let path :=
    match path? with
    | some p => p
    | none => bundle_path (get_exchange_folder exchangeName) data_frequency
  match readers.lookup path with
  | some (some r) => (some r, readers, 0)
  | _ =>
    let r := openStore path
    (r, dictInsert path r readers, 1)

/-- A `BcolzExchangeBarWriter` handle as constructed by `get_writer`. -/
structure Writer where
  rootdir : String
  startSession : DT
  endSession : DT
  writeMetadata : Bool
  dataFrequency : String
deriving DecidableEq, Repr

/-- `ExchangeBundle.get_writer(start_dt, end_dt, data_frequency)`.
`diskMeta` models the persisted store state at a path: `some (s, e)` when
the store directory is non-empty with metadata range `[s, e]`
(`BcolzMinuteBarMetadata.read`), `none` when it is empty.  A cached writer
for the path is returned unconditionally; otherwise the metadata range is
widened to include `[start_dt, end_dt]` where needed. -/
def get_writer (diskMeta : String → Option (DT × DT)) (exchangeName : String)
    (writers : List (String × Writer)) (start_dt end_dt : DT)
    (data_frequency : String) : Writer × List (String × Writer) :=
  let path := bundle_path (get_exchange_folder exchangeName) data_frequency
  match writers.lookup path with
  | some w => (w, writers)
  | none =>
    let w : Writer :=
      match diskMeta path with
      | some (ms, me) =>
        let start_session := if DT.ltB start_dt ms then start_dt else ms
        let end_session := if DT.ltB me end_dt then end_dt else me
        let write_metadata := DT.ltB start_dt ms || DT.ltB me end_dt
        ⟨path, start_session, end_session, write_metadata, data_frequency⟩
      | none => ⟨path, start_dt, end_dt, true, data_frequency⟩
    (w, dictInsert path w writers)

/-- Outcome of one `writer.write(...)` call against the external store:
success, a raised `BcolzMinuteOverlappingData`, or any other raised
exception. -/
inductive WriteOutcome
  | success
  | overlappingData
  | otherFailure
deriving DecidableEq, Repr

/-- Observable result of `ExchangeBundle._write`: whether an exception
propagated to the caller, the updated writer cache, the number of
`writer.write` calls performed, the cache keys evicted, and the
`(start, end, frequency)` arguments of the writer reacquisition when one
happened. -/
structure WriteTrace where
  result : Except Unit Unit
  writers : List (String × Writer)
  attempts : Nat
  evictedPaths : List String
  reacquireArgs : Option (DT × DT × String)

/-- `ExchangeBundle._write(data, writer, data_frequency)`: write through
the cached writer; swallow `BcolzMinuteOverlappingData`; on any other
failure evict the writer from the cache, reacquire one for the same
`[start, end, frequency]` and write exactly once more, letting a failure of
that second call propagate.  `o1` and `o2` are the store's responses to the
first and (when reached) second `writer.write` call. -/
def _write (diskMeta : String → Option (DT × DT)) (exchangeName : String)
    (o1 o2 : WriteOutcome) (writers : List (String × Writer)) (writer : Writer)
    (data_frequency : String) : WriteTrace :=
  match o1 with
  | .success => ⟨.ok (), writers, 1, [], none⟩
  | .overlappingData => ⟨.ok (), writers, 1, [], none⟩
  | .otherFailure =>
    let writers1 := dictErase writer.rootdir writers
    let (_, writers2) :=
      get_writer diskMeta exchangeName writers1 writer.startSession
        writer.endSession data_frequency
    let reacq := some (writer.startSession, writer.endSession, data_frequency)
    match o2 with
    | .success => ⟨.ok (), writers2, 2, [writer.rootdir], reacq⟩
    | _ => ⟨.error (), writers2, 2, [writer.rootdir], reacq⟩

/-- One OHLCV row of the dense table built by `get_df_from_arrays`; a
`none` field is a pandas `NaN`. -/
structure Bar where
  o : Option Int
  h : Option Int
  l : Option Int
  c : Option Int
  v : Option Int
deriving DecidableEq, Repr

/-- Row-wise `df.isnull().T.any().T`: the row has at least one missing
field. -/
def Bar.hasNan (b : Bar) : Bool :=
  b.o.isNone || b.h.isNone || b.l.isNone || b.c.isNone || b.v.isNone

/-- The gap-compression loop body of `ingest_ctable` over the missing-row
timestamps: start the `dates` list at the first missing timestamp, and on
every break in one-period-delta contiguity append the end of the finished
run and the start of the new one. -/
def gapLoop (data_frequency : String) : Option DT → List DT → List DT → List DT
  | _, dates, [] => dates
  | prev, dates, row_date :: rest =>
    match prev with
    | none => gapLoop data_frequency (some row_date) (dates ++ [row_date]) rest
    | some p =>
      let seq_date := addDelta data_frequency p
      let dates :=
        if DT.ltB seq_date row_date then dates ++ [p, row_date] else dates
      gapLoop data_frequency (some row_date) dates rest

/-- The full `dates` list reported by `ingest_ctable` for a non-empty list
of missing-row timestamps: the loop result followed by the final append of
the last missing timestamp, yielding consecutive `[first, last]` pairs of
maximal contiguous runs. -/
def gapDates (data_frequency : String) (nan_rows : List DT) : List DT :=
  match nan_rows with
  | [] => []
  | r :: rest => gapLoop data_frequency none [] (r :: rest) ++ [(r :: rest).getLastD r]

/-- Interpretation of the flat `dates` list as `[first, last]` range
pairs. -/
def toPairs : List α → List (α × α)
  | [] => []
  | [_] => []
  | a :: b :: rest => (a, b) :: toPairs rest

/-- The `EmptyValuesInBundleError` raised by the `raise` gap policy,
carrying the compressed gap `dates` list. -/
inductive IngestErr
  | emptyValuesInBundle (dates : List DT)
deriving DecidableEq, Repr

/-- The `empty_rows_behavior` section of `ingest_ctable` applied to the
dense table `df` (a time-indexed OHLCV row list): skipped entirely for
`'ignore'`; otherwise, when rows with missing fields exist, `'warn'` logs
the compressed gap ranges, `'raise'` fails with them, and any other value
(the default `'strip'`) drops the rows with missing fields. -/
def apply_empty_rows_behavior (data_frequency empty_rows_behavior : String)
    (df : List (DT × Bar)) : Except IngestErr (List (DT × Bar)) :=
  if empty_rows_behavior ≠ "ignore" then
    let nan_rows := (df.filter (fun r => r.2.hasNan)).map (fun r => r.1)
    if nan_rows.length > 0 then
      let dates := gapDates data_frequency nan_rows
      if empty_rows_behavior == "warn" then .ok df
      else if empty_rows_behavior == "raise" then .error (.emptyValuesInBundle dates)
      else .ok (df.filter (fun r => !r.2.hasNan))
    else .ok df
  else .ok df

/-- The tail of `ingest_ctable` after the staged table `df` has been loaded
and densified over the calendar grid: apply the gap policy, then build the
`data` argument passed to `_write` — empty when the table is empty,
otherwise the single `(asset.sid, df)` entry with `df` sorted by its time
index. -/
def ingest_ctable_data (data_frequency empty_rows_behavior : String) (sid : Nat)
    (df : List (DT × Bar)) : Except IngestErr (List (Nat × List (DT × Bar))) :=
  match apply_empty_rows_behavior data_frequency empty_rows_behavior df with
  | .error e => .error e
  | .ok df =>
    .ok (if df.isEmpty then []
         else [(sid, sortByLe (fun a b => DT.leB a.1 b.1) df)])

/-- `ExchangeBundle.clean(data_frequency)`.  The filesystem is the list of
entries existing under the exchange folder.  The symbol cache file
`symbols.json` and the staging tree `temp_bundles` are always removed;
then the named frequency's `{frequency}_bundle` directory is removed, or
both the `daily` and `minute` ones when no frequency is given. -/
def clean (fs : List String) (data_frequency : Option String) : List String :=
  let fs := fs.filter (fun x => x ≠ "symbols.json")
  let fs := fs.filter (fun x => x ≠ "temp_bundles")
  let frequencies :=
    match data_frequency with
    | none => ["daily", "minute"]
    | some f => [f]
  frequencies.foldl (fun fs f => fs.filter (fun x => x ≠ f ++ "_bundle")) fs

/-- Modelled from the spec: the external asset catalog collaborator
(`self.exchange.get_assets`), queried with an optional symbol list. -/
structure ExchangeCatalog where
  listAssets : Option (List String) → List Asset

/-- Splitting accumulator for `pySplitComma`. -/
def splitCommaAux : List Char → List Char → List String
  | [], acc => [String.mk acc.reverse]
  | c :: cs, acc =>
    if c = ',' then String.mk acc.reverse :: splitCommaAux cs []
    else splitCommaAux cs (c :: acc)

/-- Python `s.split(',')`. -/
def pySplitComma (s : String) : List String :=
  splitCommaAux s.data []

set_option linter.unusedVariables false in
/-- `ExchangeBundle.get_assets(include_symbols, exclude_symbols)`: resolve
the asset scope from the catalog, restricted to the comma-separated include
list when one is given; the exclude list is accepted but never applied
(`TODO: filter exclude symbols assets`). -/
def get_assets (cat : ExchangeCatalog) (include_symbols exclude_symbols : Option String) :
    List Asset :=
  match include_symbols with
  | some s => cat.listAssets (some (pySplitComma s))
  | none => cat.listAssets none

/-- `ExchangeBundle.ingest(data_frequency, include_symbols, exclude_symbols,
start, end)` up to its calls of `ingest_assets`: resolve the asset set,
adjust the date scope once with the unsplit frequency string, then invoke
`ingest_assets(assets, start_dt, end_dt, frequency)` for every
comma-separated frequency; returns the `(frequency, start_dt, end_dt)`
argument list of those calls. -/
def ingest_plan (calFirst : DT) (cat : ExchangeCatalog) (data_frequency : String)
    (include_symbols exclude_symbols : Option String) (start end_ : Option DT) :
    Except AdjErr (List (String × DT × DT)) :=
  let assets := get_assets cat include_symbols exclude_symbols
  match get_adj_dates calFirst start end_ assets data_frequency with
  | .error e => .error e
  | .ok (start_dt, end_dt) =>
    .ok ((pySplitComma data_frequency).map (fun f => (f, start_dt, end_dt)))

/-- Minimum of a timestamp list under the chronological order, computed as
the code's accumulation does (first occurrence wins on ties). -/
def optMinB (l : List DT) : Option DT :=
  l.foldl
    (fun acc d =>
      match acc with
      | none => some d
      | some m => if DT.ltB d m then some d else some m)
    none

/-- Maximum of a timestamp list under the chronological order (first
occurrence wins on ties). -/
def optMaxB (l : List DT) : Option DT :=
  l.foldl
    (fun acc d =>
      match acc with
      | none => some d
      | some m => if DT.ltB m d then some d else some m)
    none

/-- The specification's narrowing rule for the start bound: the adjusted
start becomes `earliestTrade` exactly when `start` is unset or
`earliestTrade` is later than `start`. -/
def adjStartSpec (start et : Option DT) : Option DT :=
  match start with
  | none => et
  | some s =>
    match et with
    | some t => if DT.ltB s t then some t else some s
    | none => some s

/-- The specification's narrowing rule for the end bound: the adjusted end
becomes `lastEntry` exactly when `end` is unset or `end` is later than
`lastEntry`. -/
def adjEndSpec (end_ le : Option DT) : Option DT :=
  match end_ with
  | none => le
  | some e =>
    match le with
    | some t => if DT.ltB t e then some t else some e
    | none => some e

/-- A timestamp list drawn left-to-right from an ascending period grid:
each element is at least one period delta after the previous one. -/
def GridSorted (data_frequency : String) (l : List DT) : Prop :=
  List.Chain' (fun a b => DT.leB (addDelta data_frequency a) b = true) l

/-- Maximal-run decomposition of a timestamp list, carrying the first and
last element of the current run: a successor exactly one period delta after
the run's last element (same instant) extends the run, anything else closes
it. -/
def runsGo (data_frequency : String) (first last : DT) : List DT → List (DT × DT)
  | [] => [(first, last)]
  | x :: xs =>
    if (addDelta data_frequency last).key = x.key
    then runsGo data_frequency first x xs
    else (first, last) :: runsGo data_frequency x x xs

/-- The specification's gap compression: the `[first, last]` pairs of the
maximal contiguous runs of a timestamp list. -/
def runsSpec (data_frequency : String) : List DT → List (DT × DT)
  | [] => []
  | r :: rest => runsGo data_frequency r r rest

/-- Flattening of range pairs back into the flat `dates` list layout. -/
def flattenPairs : List (DT × DT) → List DT
  | [] => []
  | (a, b) :: rest => a :: b :: flattenPairs rest

/-- First session of the `OPEN` calendar in the concrete scenarios. -/
def calFirstC : DT := ⟨2017, 1, 1, 0, 0⟩

/-- Concrete coverage oracle: the store holds exactly the range
2018-01-10 .. 2018-01-20 (for every asset). -/
def readerC : Reader :=
  ⟨fun _ s e => DT.leB ⟨2018, 1, 10, 0, 0⟩ s && DT.leB e ⟨2018, 1, 20, 0, 0⟩⟩

/-- Concrete trading pair active through 2018. -/
def asset1 : Asset :=
  ⟨1, "btc_usdt", "poloniex", ⟨2018, 1, 1, 0, 0⟩,
    some ⟨2018, 12, 31, 23, 59⟩, some ⟨2018, 12, 31, 0, 0⟩⟩

/-- Concrete trading pair whose minute and daily end bounds differ
(last minute 2018-06-15 23:59, last daily session 2018-06-15 00:00). -/
def asset2 : Asset :=
  ⟨2, "eth_usdt", "poloniex", ⟨2018, 1, 1, 0, 0⟩,
    some ⟨2018, 6, 15, 23, 59⟩, some ⟨2018, 6, 15, 0, 0⟩⟩

/-- An OHLCV row with no missing field. -/
def fullBar : Bar := ⟨some 1, some 2, some 1, some 2, some 10⟩

/-- An OHLCV row with a missing close field (a pandas `NaN` row). -/
def nanBar : Bar := ⟨some 1, some 2, some 1, none, some 10⟩

/-- Concrete dense table with one missing row, for the warn-policy
scenario. -/
def dfWarn : List (DT × Bar) :=
  [(⟨2018, 1, 1, 0, 0⟩, nanBar), (⟨2018, 1, 2, 0, 0⟩, fullBar)]

/-- Concrete dense table whose missing rows sit at days 1, 2, 3 and 7:
one contiguous run and one isolated gap. -/
def dfRaise : List (DT × Bar) :=
  [(⟨2018, 1, 1, 0, 0⟩, nanBar), (⟨2018, 1, 2, 0, 0⟩, nanBar),
   (⟨2018, 1, 3, 0, 0⟩, nanBar), (⟨2018, 1, 4, 0, 0⟩, fullBar),
   (⟨2018, 1, 7, 0, 0⟩, nanBar)]

/-- Store opener that always fails with `IOError` (no store on disk). -/
def openFailC : String → Option Reader := fun _ => none

/-- Default minute-store path of the concrete `poloniex` scenarios. -/
def pathMinuteC : String := bundle_path (get_exchange_folder "poloniex") "minute"

theorem mem_insertLe {α : Type} (le : α → α → Bool) (x a : α) :
    ∀ l : List α, a ∈ insertLe le x l ↔ a = x ∨ a ∈ l := by
  intro l
  induction l with
  | nil => simp [insertLe]
  | cons y ys ih =>
    unfold insertLe
    split
    · simp [List.mem_cons]
    · simp [List.mem_cons, ih]
      tauto

theorem mem_sortByLe {α : Type} (le : α → α → Bool) (a : α) :
    ∀ l : List α, a ∈ sortByLe le l ↔ a ∈ l := by
  intro l
  induction l with
  | nil => simp [sortByLe]
  | cons y ys ih => simp [sortByLe, mem_insertLe, ih, List.mem_cons]

theorem processDay_guard (reader : Option Reader) (data_frequency : String)
    (asset : Asset) (first_trading_dt dt : DT) (labels : List PeriodLabel)
    (chunks labels' chunks' : _)
    (h : processDay reader data_frequency asset first_trading_dt dt labels chunks =
      .ok (labels', chunks')) :
    ∀ c ∈ chunks', c ∈ chunks ∨
      (c.asset = asset ∧
        range_in_bundle asset (probe_start data_frequency c.period_start)
          c.period_end reader = false) := by
  unfold processDay at h
  dsimp only [] at h
  split at h
  · injection h with h'
    injection h' with h1 h2
    subst h2
    exact fun c hc => Or.inl hc
  · split at h
    · exact Except.noConfusion h
    · injection h with h'
      injection h' with h1 h2
      subst h2
      exact fun c hc => Or.inl hc
    · split at h
      · injection h with h'
        injection h' with h1 h2
        subst h2
        exact fun c hc => Or.inl hc
      · rename_i ps pe _ hnd
        injection h with h'
        injection h' with h1 h2
        subst h2
        intro c hc
        rcases List.mem_append.mp hc with hc | hc
        · exact Or.inl hc
        · rcases List.mem_singleton.mp hc with rfl
          exact Or.inr ⟨rfl, Bool.eq_false_iff.mpr hnd⟩

theorem chunkLoop_guard (reader : Option Reader) (data_frequency : String)
    (asset : Asset) (first_trading_dt last : DT) (fuel : Nat) :
    ∀ (dt : DT) (labels : List PeriodLabel) (chunks out : List Chunk),
      chunkLoop reader data_frequency asset first_trading_dt
        fuel dt last labels chunks = .ok out →
      ∀ c ∈ out, c ∈ chunks ∨
        (c.asset = asset ∧
          range_in_bundle asset (probe_start data_frequency c.period_start)
            c.period_end reader = false) := by
  induction fuel with
  | zero => intro dt labels chunks out h; exact absurd h (by simp [chunkLoop])
  | succ n ih =>
    intro dt labels chunks out h
    unfold chunkLoop at h
    split at h
    · cases hpd : processDay reader data_frequency asset first_trading_dt dt labels chunks with
      | error e => rw [hpd] at h; exact absurd h (by simp)
      | ok pr =>
        obtain ⟨labels1, chunks1⟩ := pr
        rw [hpd] at h
        intro c hc
        rcases ih dt.nextDay labels1 chunks1 out h c hc with hmem | hp
        · exact processDay_guard reader data_frequency asset first_trading_dt dt
            labels chunks labels1 chunks1 hpd c hmem
        · exact Or.inr hp
    · injection h with h'
      exact fun c hc => Or.inl (h' ▸ hc)

theorem prepareAssets_guard (calFirst : DT) (reader : Option Reader)
    (data_frequency : String) (start_dt end_dt : Option DT) :
    ∀ (assets : List Asset) (chunks out : List Chunk),
      prepareAssets calFirst reader data_frequency start_dt end_dt assets chunks = .ok out →
      ∀ c ∈ out, c ∈ chunks ∨
        range_in_bundle c.asset (probe_start data_frequency c.period_start)
          c.period_end reader = false := by
  intro assets
  induction assets with
  | nil =>
    intro chunks out h
    injection h with h'
    exact fun c hc => Or.inl (h' ▸ hc)
  | cons a rest ih =>
    intro chunks out h
    unfold prepareAssets at h
    dsimp only [] at h
    split at h
    · exact ih chunks out h
    · exact Except.noConfusion h
    · split at h
      · exact Except.noConfusion h
      · split at h
        · exact Except.noConfusion h
        · rename_i chunks1 hloop
          intro c hc
          rcases ih chunks1 out h c hc with hmem | hp
          · rcases chunkLoop_guard _ _ _ _ _ _ _ _ _ _ hloop c hmem
              with hmem' | ⟨hca, hrg⟩
            · exact Or.inl hmem'
            · exact Or.inr (hca ▸ hrg)
          · exact Or.inr hp

theorem prepare_chunks_guard (calFirst : DT) (reader : Option Reader)
    (assets : List Asset) (data_frequency : String) (start_dt end_dt : Option DT)
    (chunks : List Chunk)
    (h : prepare_chunks calFirst reader assets data_frequency start_dt end_dt = .ok chunks) :
    ∀ c ∈ chunks,
      range_in_bundle c.asset (probe_start data_frequency c.period_start)
        c.period_end reader = false := by
  unfold prepare_chunks at h
  cases hpa : prepareAssets calFirst reader data_frequency start_dt end_dt assets [] with
  | error e => rw [hpa] at h; exact absurd h (by simp [Except.map])
  | ok cs =>
    rw [hpa] at h
    simp only [Except.map] at h
    injection h with h'
    intro c hc
    have hcs : c ∈ cs := by
      rw [← h'] at hc
      exact (mem_sortByLe _ c cs).mp hc
    rcases prepareAssets_guard calFirst reader data_frequency start_dt end_dt
        assets [] cs hpa c hcs with hmem | hp
    · exact absurd hmem (by simp)
    · exact hp

theorem readerC_monotone : ReaderMonotone (some readerC) := by
  intro r hr sid s e s' e' h1 h2 hcv
  injection hr with hr'
  subst hr'
  simp only [readerC, DT.leB, Bool.and_eq_true, decide_eq_true_eq] at *
  omega

/-- C1 (amended): if the reader's coverage is range-monotone and
`range_in_bundle(asset, s, e, reader)` holds before planning, then
`prepare_chunks` emits no chunk for that asset whose probed range
`[probe_start, period_end]` lies inside `[s, e]`; a chunk that merely
intersects `[s, e]` can still be emitted when its calendar period extends
beyond the covered range. -/
theorem C1_no_chunk_within_covered_range
    (calFirst : DT) (reader : Option Reader) (assets : List Asset)
    (data_frequency : String) (start_dt end_dt : Option DT)
    (a : Asset) (s e : DT) (chunks : List Chunk) (c : Chunk)
    (hok : prepare_chunks calFirst reader assets data_frequency start_dt end_dt = .ok chunks)
    (hmono : ReaderMonotone reader)
    (hcov : range_in_bundle a s e reader = true)
    (hc : c ∈ chunks) (ha : c.asset = a) :
    (DT.leB s (probe_start data_frequency c.period_start) &&
      DT.leB c.period_end e) = false := by
  have hguard := prepare_chunks_guard calFirst reader assets data_frequency
    start_dt end_dt chunks hok c hc
  cases hb : DT.leB s (probe_start data_frequency c.period_start) &&
      DT.leB c.period_end e with
  | false => rfl
  | true =>
    exfalso
    rw [Bool.and_eq_true] at hb
    obtain ⟨h1, h2⟩ := hb
    cases reader with
    | none => simp [range_in_bundle] at hcov
    | some r =>
      have hcv : r.covered a.sid s e = true := hcov
      have hup := hmono r rfl a.sid s e
        (probe_start data_frequency c.period_start) c.period_end h1 h2 hcv
      rw [ha] at hguard
      have hguard' : r.covered a.sid (probe_start data_frequency c.period_start)
          c.period_end = false := hguard
      rw [hup] at hguard'
      exact Bool.noConfusion hguard'

theorem C1_no_chunk_within_covered_range_witness :
    range_in_bundle asset1 ⟨2018, 1, 10, 0, 0⟩ ⟨2018, 1, 20, 0, 0⟩ (some readerC) = true ∧
    prepare_chunks calFirstC (some readerC) [asset1] "daily"
        (some ⟨2018, 1, 1, 0, 0⟩) (some ⟨2018, 1, 31, 0, 0⟩) =
      .ok [⟨asset1, ⟨2018, 1, 1, 0, 0⟩, ⟨2018, 12, 31, 23, 59⟩, .year 2018⟩] ∧
    (DT.leB ⟨2018, 1, 10, 0, 0⟩ (probe_start "daily" ⟨2018, 1, 1, 0, 0⟩) &&
      DT.leB ⟨2018, 12, 31, 23, 59⟩ ⟨2018, 1, 20, 0, 0⟩) = false :=
  ⟨rfl, rfl,
    C1_no_chunk_within_covered_range calFirstC (some readerC) [asset1] "daily"
      (some ⟨2018, 1, 1, 0, 0⟩) (some ⟨2018, 1, 31, 0, 0⟩) asset1
      ⟨2018, 1, 10, 0, 0⟩ ⟨2018, 1, 20, 0, 0⟩
      [⟨asset1, ⟨2018, 1, 1, 0, 0⟩, ⟨2018, 12, 31, 23, 59⟩, .year 2018⟩]
      ⟨asset1, ⟨2018, 1, 1, 0, 0⟩, ⟨2018, 12, 31, 23, 59⟩, .year 2018⟩
      rfl readerC_monotone rfl (List.mem_singleton.mpr rfl) rfl⟩

/-- C1 (counterexample to the claim as stated): the store fully covers
`[2018-01-10, 2018-01-20]` and `range_in_bundle` reports so before
planning, yet `prepare_chunks` emits a yearly chunk for the asset whose
`[period_start, period_end]` intersects that covered range, because the
probed calendar period extends beyond it. -/
theorem C1_counterexample :
    range_in_bundle asset1 ⟨2018, 1, 10, 0, 0⟩ ⟨2018, 1, 20, 0, 0⟩ (some readerC) = true ∧
    prepare_chunks calFirstC (some readerC) [asset1] "daily"
        (some ⟨2018, 1, 1, 0, 0⟩) (some ⟨2018, 1, 31, 0, 0⟩) =
      .ok [⟨asset1, ⟨2018, 1, 1, 0, 0⟩, ⟨2018, 12, 31, 23, 59⟩, .year 2018⟩] ∧
    DT.leB ⟨2018, 1, 1, 0, 0⟩ ⟨2018, 1, 20, 0, 0⟩ = true ∧
    DT.leB ⟨2018, 1, 10, 0, 0⟩ ⟨2018, 12, 31, 23, 59⟩ = true :=
  ⟨rfl, rfl, rfl, rfl⟩

/-- C2: at the concrete failing input — a daily planning pass over an asset
whose `end_minute` (2018-06-15 23:59) differs from its `end_daily`
(2018-06-15 00:00) — the emitted yearly chunk's `period_end` is clipped to
the asset's `end_minute`, not to `end_daily` as the specification states:
the daily branch of `prepare_chunks` reads `asset.end_minute`. -/
theorem C2_daily_clip_uses_end_minute :
    prepare_chunks calFirstC none [asset2] "daily"
        (some ⟨2018, 1, 1, 0, 0⟩) (some ⟨2018, 1, 31, 0, 0⟩) =
      .ok [⟨asset2, ⟨2018, 1, 1, 0, 0⟩, ⟨2018, 6, 15, 23, 59⟩, .year 2018⟩] ∧
    asset2.end_minute = some ⟨2018, 6, 15, 23, 59⟩ ∧
    asset2.end_daily = some ⟨2018, 6, 15, 0, 0⟩ ∧
    (⟨2018, 6, 15, 23, 59⟩ : DT) ≠ ⟨2018, 6, 15, 0, 0⟩ :=
  ⟨rfl, rfl, rfl, by decide⟩

/-- C3: `_write` swallows an overlapping-data failure with no retry; any
other failure causes exactly one retry — evicting the cached writer for
its path, reacquiring a writer for the same `[start, end, frequency]`, and
writing exactly once more — whose failure propagates; and no third write
attempt ever occurs. -/
theorem C3_write_retry_protocol (diskMeta : String → Option (DT × DT))
    (exchangeName : String) (writers : List (String × Writer)) (writer : Writer)
    (data_frequency : String) (o2 : WriteOutcome) :
    (_write diskMeta exchangeName .success o2 writers writer data_frequency).attempts = 1 ∧
    (_write diskMeta exchangeName .success o2 writers writer data_frequency).result = .ok () ∧
    (_write diskMeta exchangeName .overlappingData o2 writers writer data_frequency).attempts = 1 ∧
    (_write diskMeta exchangeName .overlappingData o2 writers writer data_frequency).result = .ok () ∧
    (_write diskMeta exchangeName .overlappingData o2 writers writer data_frequency).evictedPaths = [] ∧
    (_write diskMeta exchangeName .overlappingData o2 writers writer data_frequency).reacquireArgs = none ∧
    (_write diskMeta exchangeName .otherFailure o2 writers writer data_frequency).attempts = 2 ∧
    (_write diskMeta exchangeName .otherFailure o2 writers writer data_frequency).evictedPaths =
      [writer.rootdir] ∧
    (_write diskMeta exchangeName .otherFailure o2 writers writer data_frequency).reacquireArgs =
      some (writer.startSession, writer.endSession, data_frequency) ∧
    ((_write diskMeta exchangeName .otherFailure o2 writers writer data_frequency).result = .ok ()
      ↔ o2 = .success) ∧
    ∀ o1, (_write diskMeta exchangeName o1 o2 writers writer data_frequency).attempts ≤ 2 := by
  refine ⟨rfl, rfl, rfl, rfl, rfl, rfl, ?_, ?_, ?_, ?_, ?_⟩
  · cases o2 <;> rfl
  · cases o2 <;> rfl
  · cases o2 <;> rfl
  · cases o2 <;> simp [_write]
  · intro o1
    cases o1 <;> cases o2 <;> simp [_write]

/-- C9: `get_assets` never inspects `exclude_symbols` — two calls differing
only in the exclude list return the same asset list. -/
theorem C9_exclude_symbols_unused (cat : ExchangeCatalog)
    (include_symbols ex1 ex2 : Option String) :
    get_assets cat include_symbols ex1 = get_assets cat include_symbols ex2 := rfl

/-- C10: for the multi-frequency string `"minute,daily"`, the end-bound
selector of `get_adj_dates` compares the unsplit string against
`'minute'` and therefore picks `end_daily` for every asset, and `ingest`
computes the scope once with the unsplit string and passes the shared
bounds to both the minute and the daily `ingest_assets` pass. -/
theorem C10_unsplit_frequency_scope (calFirst : DT) (cat : ExchangeCatalog)
    (include_symbols exclude_symbols : Option String) (start end_ : Option DT) :
    (∀ a : Asset, end_asset_of "minute,daily" a = a.end_daily) ∧
    (∀ assets : List Asset,
      last_entry_fold "minute,daily" assets = last_entry_fold "daily" assets) ∧
    ingest_plan calFirst cat "minute,daily" include_symbols exclude_symbols start end_ =
      (match get_adj_dates calFirst start end_
          (get_assets cat include_symbols exclude_symbols) "minute,daily" with
       | .error e => .error e
       | .ok (s, e) => .ok [("minute", s, e), ("daily", s, e)]) := by
  refine ⟨fun a => rfl, fun assets => rfl, ?_⟩
  unfold ingest_plan
  dsimp only []
  cases h : get_adj_dates calFirst start end_
      (get_assets cat include_symbols exclude_symbols) "minute,daily" with
  | error e => rfl
  | ok pr =>
    obtain ⟨s0, e0⟩ := pr
    rfl

/-- C4 (counterexample to the claim as stated): under the `'warn'` policy a
row with a missing field is not dropped — the table written to the store
still contains the `NaN` row. -/
theorem C4_counterexample :
    ingest_ctable_data "daily" "warn" 7 dfWarn = .ok [(7, dfWarn)] ∧
    (⟨2018, 1, 1, 0, 0⟩, nanBar) ∈ dfWarn ∧ nanBar.hasNan = true := by
  refine ⟨rfl, ?_, rfl⟩
  simp [dfWarn]

/-- C4 (amended): under the `'warn'` policy the compressed gap ranges are
only logged; rows with missing fields are retained, and the table is
written unchanged — rows are dropped only by the fall-through (`'strip'`)
branch. -/
theorem C4_warn_retains_nan_rows (data_frequency : String) (sid : Nat)
    (df : List (DT × Bar)) :
    apply_empty_rows_behavior data_frequency "warn" df = .ok df ∧
    ingest_ctable_data data_frequency "warn" sid df =
      .ok (if df.isEmpty then []
           else [(sid, sortByLe (fun a b => DT.leB a.1 b.1) df)]) := by
  have h1 : apply_empty_rows_behavior data_frequency "warn" df = .ok df := by
    simp [apply_empty_rows_behavior]
  refine ⟨h1, ?_⟩
  unfold ingest_ctable_data
  rw [h1]

/-- C5 (counterexample to the claim as stated): after a failed open has
cached the `None` store-absent marker for the default path, a subsequent
`get_reader` call for the same path does not return the cached result
directly: it performs another store open attempt. -/
theorem C5_counterexample :
    (get_reader openFailC "poloniex" [] "minute" none).2.2 = 1 ∧
    (get_reader openFailC "poloniex" [] "minute" none).2.1 = [(pathMinuteC, none)] ∧
    (get_reader openFailC "poloniex" [(pathMinuteC, none)] "minute" none).2.2 = 1 :=
  ⟨rfl, rfl, rfl⟩

/-- C5 (amended): the open-failure marker is cached but does not
short-circuit: whenever the cache maps the path to the `None` marker,
`get_reader` attempts to open the store again and returns (and re-caches)
that fresh attempt's result; only a successfully opened reader is served
from the cache without I/O. -/
theorem C5_reader_cache_retries_open (openStore : String → Option Reader)
    (exchangeName : String) (readers : List (String × Option Reader))
    (data_frequency : String) (path : String)
    (h : readers.lookup path = some none) :
    get_reader openStore exchangeName readers data_frequency (some path) =
      (openStore path, dictInsert path (openStore path) readers, 1) := by
  unfold get_reader
  dsimp only []
  rw [h]

theorem C5_reader_cache_retries_open_witness :
    (([("p1", (none : Option Reader))] : List (String × Option Reader)).lookup "p1" =
      some none) ∧
    get_reader openFailC "bitfinex" [("p1", none)] "minute" (some "p1") =
      (none, [("p1", none)], 1) :=
  ⟨rfl, C5_reader_cache_retries_open openFailC "bitfinex" [("p1", none)] "minute" "p1" rfl⟩

/-- C8 (counterexample to the claim as stated): `clean("daily")` does not
leave `symbols.json` untouched — starting from a filesystem holding the
symbol cache, the staging tree and both stores, it removes everything
except the minute store. -/
theorem C8_counterexample :
    clean ["symbols.json", "temp_bundles", "daily_bundle", "minute_bundle"] (some "daily") =
      ["minute_bundle"] ∧
    "symbols.json" ∈
      (["symbols.json", "temp_bundles", "daily_bundle", "minute_bundle"] : List String) :=
  ⟨rfl, by simp⟩

/-- C8 (amended): `clean("daily")` removes the daily store directory, the
symbol cache and the staging tree, leaving a minute store untouched;
`clean(None)` removes both frequency store directories plus the symbol
cache and the staging tree. -/
theorem C8_clean_membership (fs : List String) (x : String) :
    (x ∈ clean fs (some "daily") ↔
      x ∈ fs ∧ x ≠ "symbols.json" ∧ x ≠ "temp_bundles" ∧ x ≠ "daily_bundle") ∧
    (x ∈ clean fs none ↔
      x ∈ fs ∧ x ≠ "symbols.json" ∧ x ≠ "temp_bundles" ∧ x ≠ "daily_bundle" ∧
        x ≠ "minute_bundle") := by
  have hd : ("daily" ++ "_bundle" : String) = "daily_bundle" := rfl
  have hm : ("minute" ++ "_bundle" : String) = "minute_bundle" := rfl
  unfold clean
  constructor
  · simp [List.mem_filter, hd, and_assoc]
    tauto
  · simp [List.mem_filter, hd, hm, and_assoc]
    tauto

theorem optMinB_go :
    ∀ (l : List DT) (acc : Option DT) (m : DT),
      List.foldl
        (fun acc d =>
          match acc with
          | none => some d
          | some t => if DT.ltB d t then some d else some t)
        acc l = some m →
      (acc = some m ∨ m ∈ l) ∧ (∀ x ∈ l, m.key ≤ x.key) ∧
        (∀ t, acc = some t → m.key ≤ t.key) := by
  intro l
  induction l with
  | nil =>
    intro acc m h
    simp only [List.foldl_nil] at h
    refine ⟨Or.inl h, by simp, ?_⟩
    intro t ht
    rw [ht] at h
    injection h with h'
    rw [h']
  | cons d ds ih =>
    intro acc m h
    rw [List.foldl_cons] at h
    cases acc with
    | none =>
      dsimp only [] at h
      obtain ⟨h1, h2, h3⟩ := ih (some d) m h
      have hmd : m.key ≤ d.key := h3 d rfl
      refine ⟨?_, ?_, fun t ht => Option.noConfusion ht⟩
      · rcases h1 with h1 | h1
        · injection h1 with h1'
          exact Or.inr (by rw [← h1']; exact List.mem_cons_self d ds)
        · exact Or.inr (List.mem_cons_of_mem d h1)
      · intro x hx
        rcases List.mem_cons.mp hx with rfl | hx
        · exact hmd
        · exact h2 x hx
    | some t =>
      dsimp only [] at h
      by_cases hlt : DT.ltB d t = true
      · rw [if_pos hlt] at h
        obtain ⟨h1, h2, h3⟩ := ih (some d) m h
        have hmd : m.key ≤ d.key := h3 d rfl
        have hdt : d.key < t.key := by simpa [DT.ltB] using hlt
        refine ⟨?_, ?_, ?_⟩
        · rcases h1 with h1 | h1
          · injection h1 with h1'
            exact Or.inr (by rw [← h1']; exact List.mem_cons_self d ds)
          · exact Or.inr (List.mem_cons_of_mem d h1)
        · intro x hx
          rcases List.mem_cons.mp hx with rfl | hx
          · exact hmd
          · exact h2 x hx
        · intro u hu
          injection hu with hu'
          subst hu'
          omega
      · rw [if_neg hlt] at h
        obtain ⟨h1, h2, h3⟩ := ih (some t) m h
        have hmt : m.key ≤ t.key := h3 t rfl
        have htd : t.key ≤ d.key := by
          simp only [DT.ltB, decide_eq_true_eq] at hlt
          omega
        refine ⟨?_, ?_, ?_⟩
        · rcases h1 with h1 | h1
          · exact Or.inl h1
          · exact Or.inr (List.mem_cons_of_mem d h1)
        · intro x hx
          rcases List.mem_cons.mp hx with rfl | hx
          · omega
          · exact h2 x hx
        · intro u hu
          injection hu with hu'
          subst hu'
          exact hmt

theorem optMaxB_go :
    ∀ (l : List DT) (acc : Option DT) (m : DT),
      List.foldl
        (fun acc d =>
          match acc with
          | none => some d
          | some t => if DT.ltB t d then some d else some t)
        acc l = some m →
      (acc = some m ∨ m ∈ l) ∧ (∀ x ∈ l, x.key ≤ m.key) ∧
        (∀ t, acc = some t → t.key ≤ m.key) := by
  intro l
  induction l with
  | nil =>
    intro acc m h
    simp only [List.foldl_nil] at h
    refine ⟨Or.inl h, by simp, ?_⟩
    intro t ht
    rw [ht] at h
    injection h with h'
    rw [h']
  | cons d ds ih =>
    intro acc m h
    rw [List.foldl_cons] at h
    cases acc with
    | none =>
      dsimp only [] at h
      obtain ⟨h1, h2, h3⟩ := ih (some d) m h
      have hmd : d.key ≤ m.key := h3 d rfl
      refine ⟨?_, ?_, fun t ht => Option.noConfusion ht⟩
      · rcases h1 with h1 | h1
        · injection h1 with h1'
          exact Or.inr (by rw [← h1']; exact List.mem_cons_self d ds)
        · exact Or.inr (List.mem_cons_of_mem d h1)
      · intro x hx
        rcases List.mem_cons.mp hx with rfl | hx
        · exact hmd
        · exact h2 x hx
    | some t =>
      dsimp only [] at h
      by_cases hlt : DT.ltB t d = true
      · rw [if_pos hlt] at h
        obtain ⟨h1, h2, h3⟩ := ih (some d) m h
        have hmd : d.key ≤ m.key := h3 d rfl
        have hdt : t.key < d.key := by simpa [DT.ltB] using hlt
        refine ⟨?_, ?_, ?_⟩
        · rcases h1 with h1 | h1
          · injection h1 with h1'
            exact Or.inr (by rw [← h1']; exact List.mem_cons_self d ds)
          · exact Or.inr (List.mem_cons_of_mem d h1)
        · intro x hx
          rcases List.mem_cons.mp hx with rfl | hx
          · exact hmd
          · exact h2 x hx
        · intro u hu
          injection hu with hu'
          subst hu'
          omega
      · rw [if_neg hlt] at h
        obtain ⟨h1, h2, h3⟩ := ih (some t) m h
        have hmt : t.key ≤ m.key := h3 t rfl
        have htd : d.key ≤ t.key := by
          simp only [DT.ltB, decide_eq_true_eq] at hlt
          omega
        refine ⟨?_, ?_, ?_⟩
        · rcases h1 with h1 | h1
          · exact Or.inl h1
          · exact Or.inr (List.mem_cons_of_mem d h1)
        · intro x hx
          rcases List.mem_cons.mp hx with rfl | hx
          · omega
          · exact h2 x hx
        · intro u hu
          injection hu with hu'
          subst hu'
          exact hmt

theorem optMinB_spec (l : List DT) (m : DT) (h : optMinB l = some m) :
    m ∈ l ∧ ∀ x ∈ l, m.key ≤ x.key := by
  obtain ⟨h1, h2, _⟩ := optMinB_go l none m h
  rcases h1 with h1 | h1
  · exact Option.noConfusion h1
  · exact ⟨h1, h2⟩

theorem optMaxB_spec (l : List DT) (m : DT) (h : optMaxB l = some m) :
    m ∈ l ∧ ∀ x ∈ l, x.key ≤ m.key := by
  obtain ⟨h1, h2, _⟩ := optMaxB_go l none m h
  rcases h1 with h1 | h1
  · exact Option.noConfusion h1
  · exact ⟨h1, h2⟩

theorem earliest_trade_go (calFirst : DT) :
    ∀ (assets : List Asset) (acc : Option DT),
      List.foldl
        (fun et a =>
          if (match et with
              | none => true
              | some t => DT.ltB a.start_date t) && DT.leB calFirst a.start_date
          then some a.start_date else et)
        acc assets =
      List.foldl
        (fun acc d =>
          match acc with
          | none => some d
          | some t => if DT.ltB d t then some d else some t)
        acc ((assets.filter (fun a => DT.leB calFirst a.start_date)).map
          (fun a => a.start_date)) := by
  intro assets
  induction assets with
  | nil => intro acc; rfl
  | cons a rest ih =>
    intro acc
    rw [List.foldl_cons]
    by_cases hq : DT.leB calFirst a.start_date = true
    · rw [List.filter_cons_of_pos (by exact hq), List.map_cons, List.foldl_cons]
      have hstep :
          (if (match acc with
               | none => true
               | some t => DT.ltB a.start_date t) && DT.leB calFirst a.start_date
           then some a.start_date else acc) =
          (match acc with
           | none => some a.start_date
           | some t => if DT.ltB a.start_date t then some a.start_date else some t) := by
        cases acc with
        | none => simp [hq]
        | some t =>
          dsimp only []
          rw [hq, Bool.and_true]
      rw [hstep]
      exact ih _
    · rw [List.filter_cons_of_neg (by exact hq)]
      have hstep :
          (if (match acc with
               | none => true
               | some t => DT.ltB a.start_date t) && DT.leB calFirst a.start_date
           then some a.start_date else acc) = acc := by
        rw [Bool.eq_false_iff.mpr hq, Bool.and_false]
        simp
      rw [hstep]
      exact ih acc

theorem last_entry_go (data_frequency : String) :
    ∀ (assets : List Asset) (acc : Option DT),
      List.foldl
        (fun le a =>
          match end_asset_of data_frequency a with
          | none => le
          | some ea =>
            if (match le with
                | none => true
                | some t => DT.ltB t ea)
            then some ea else le)
        acc assets =
      List.foldl
        (fun acc d =>
          match acc with
          | none => some d
          | some t => if DT.ltB t d then some d else some t)
        acc (assets.filterMap (end_asset_of data_frequency)) := by
  intro assets
  induction assets with
  | nil => intro acc; rfl
  | cons a rest ih =>
    intro acc
    rw [List.foldl_cons]
    cases hea : end_asset_of data_frequency a with
    | none =>
      rw [List.filterMap_cons_none hea]
      dsimp only []
      exact ih acc
    | some ea =>
      rw [List.filterMap_cons_some hea, List.foldl_cons]
      dsimp only []
      have hstep :
          (match acc with
           | none => some ea
           | some t => if DT.ltB t ea then some ea else some t) =
          (if (match acc with
               | none => true
               | some t => DT.ltB t ea)
           then some ea else acc) := by
        cases acc with
        | none => simp
        | some t => dsimp only []
      rw [← hstep]
      exact ih _

theorem earliest_trade_eq (calFirst : DT) (assets : List Asset) :
    earliest_trade_fold calFirst assets =
      optMinB ((assets.filter (fun a => DT.leB calFirst a.start_date)).map
        (fun a => a.start_date)) :=
  earliest_trade_go calFirst assets none

theorem last_entry_eq (data_frequency : String) (assets : List Asset) :
    last_entry_fold data_frequency assets =
      optMaxB (assets.filterMap (end_asset_of data_frequency)) :=
  last_entry_go data_frequency assets none

/-- C6 (counterexample to the claim as stated): with an empty asset list
and unset bounds the raise condition holds, but the failure raised is not
`NoDataAvailableOnExchange`: evaluating `asset.exchange` in the `raise`
statement fails with an unbound-local error because the `for` loop never
bound `asset`. -/
theorem C6_counterexample :
    get_adj_dates calFirstC none none [] "minute" = .error .unboundLocalError ∧
    AdjErr.unboundLocalError ≠ AdjErr.noDataAvailableOnExchange :=
  ⟨rfl, by decide⟩

/-- C6 (amended): for a non-empty asset list, `get_adj_dates` narrows the
caller's bounds exactly as claimed — `earliest_trade` is the minimum
`start_date` over assets whose `start_date` is at or after the calendar's
first session, `last_entry` is the maximum per-frequency end bound, the
adjusted start becomes `earliest_trade` exactly when `start` is unset or
`earliest_trade` is later, the adjusted end becomes `last_entry` exactly
when `end` is unset or later than `last_entry`, and
`NoDataAvailableOnExchange` is raised exactly when the resulting start or
end is unset or start is not before end; with an empty asset list the
raise path fails differently (unbound local). -/
theorem C6_adj_dates_characterization (calFirst : DT) (start end_ : Option DT)
    (assets : List Asset) (data_frequency : String) (h : assets ≠ []) :
    earliest_trade_fold calFirst assets =
      optMinB ((assets.filter (fun a => DT.leB calFirst a.start_date)).map
        (fun a => a.start_date)) ∧
    last_entry_fold data_frequency assets =
      optMaxB (assets.filterMap (end_asset_of data_frequency)) ∧
    (∀ m, earliest_trade_fold calFirst assets = some m →
      m ∈ (assets.filter (fun a => DT.leB calFirst a.start_date)).map
        (fun a => a.start_date) ∧
      ∀ x ∈ (assets.filter (fun a => DT.leB calFirst a.start_date)).map
        (fun a => a.start_date), m.key ≤ x.key) ∧
    (∀ m, last_entry_fold data_frequency assets = some m →
      m ∈ assets.filterMap (end_asset_of data_frequency) ∧
      ∀ x ∈ assets.filterMap (end_asset_of data_frequency), x.key ≤ m.key) ∧
    get_adj_dates calFirst start end_ assets data_frequency =
      (match adjStartSpec start (earliest_trade_fold calFirst assets),
             adjEndSpec end_ (last_entry_fold data_frequency assets) with
       | some s, some e =>
         if DT.leB e s then .error .noDataAvailableOnExchange else .ok (s, e)
       | some _, none => .error .noDataAvailableOnExchange
       | none, _ => .error .noDataAvailableOnExchange) := by
  refine ⟨earliest_trade_eq calFirst assets, last_entry_eq data_frequency assets,
    ?_, ?_, ?_⟩
  · intro m hm
    exact optMinB_spec _ m ((earliest_trade_eq calFirst assets).symm.trans hm)
  · intro m hm
    exact optMaxB_spec _ m ((last_entry_eq data_frequency assets).symm.trans hm)
  · obtain ⟨a0, ha0⟩ : ∃ a0, assets.getLast? = some a0 :=
      Option.isSome_iff_exists.mp (List.getLast?_isSome.mpr h)
    unfold get_adj_dates adjStartSpec adjEndSpec
    dsimp only []
    rw [ha0]

theorem C6_adj_dates_characterization_witness :
    get_adj_dates calFirstC none none [asset1] "daily" =
      .ok (⟨2018, 1, 1, 0, 0⟩, ⟨2018, 12, 31, 0, 0⟩) :=
  ((C6_adj_dates_characterization calFirstC none none [asset1] "daily"
      (by simp)).2.2.2.2).trans rfl

theorem toPairs_flattenPairs : ∀ ps : List (DT × DT), toPairs (flattenPairs ps) = ps := by
  intro ps
  induction ps with
  | nil => rfl
  | cons p rest ih =>
    obtain ⟨a, b⟩ := p
    simp only [flattenPairs, toPairs, ih]

theorem gapLoop_runs (data_frequency : String) :
    ∀ (rest : List DT) (p first : DT) (flat : List DT),
      GridSorted data_frequency (p :: rest) →
      gapLoop data_frequency (some p) (flat ++ [first]) rest ++ [(p :: rest).getLastD p] =
        flat ++ flattenPairs (runsGo data_frequency first p rest) := by
  intro rest
  induction rest with
  | nil =>
    intro p first flat _
    simp [gapLoop, runsGo, flattenPairs]
  | cons x xs ih =>
    intro p first flat hgs
    have hchain := hgs
    unfold GridSorted at hchain
    rw [List.chain'_cons] at hchain
    obtain ⟨hpx, hxs⟩ := hchain
    unfold gapLoop
    dsimp only []
    rw [List.getLastD_cons]
    cases hlt : DT.ltB (addDelta data_frequency p) x with
    | false =>
      have hk : (addDelta data_frequency p).key = x.key := by
        simp only [DT.ltB, decide_eq_false_iff_not, Nat.not_lt] at hlt
        simp only [DT.leB, decide_eq_true_eq] at hpx
        omega
      rw [if_neg (by simp [hlt])]
      simp only [runsGo]
      rw [if_pos hk]
      exact ih x first flat hxs
    | true =>
      have hk : ¬(addDelta data_frequency p).key = x.key := by
        simp only [DT.ltB, decide_eq_true_eq] at hlt
        omega
      rw [if_pos rfl]
      simp only [runsGo]
      rw [if_neg hk]
      simp only [flattenPairs]
      have hre : (flat ++ [first]) ++ [p, x] = (flat ++ [first, p]) ++ [x] := by
        simp
      rw [hre, show (x :: xs).getLastD p = (x :: xs).getLastD x from rfl,
        ih x x (flat ++ [first, p]) hxs]
      simp

theorem gapDates_runs (data_frequency : String) (l : List DT) (h1 : l ≠ [])
    (h2 : GridSorted data_frequency l) :
    gapDates data_frequency l = flattenPairs (runsSpec data_frequency l) := by
  cases l with
  | nil => exact absurd rfl h1
  | cons r rest =>
    unfold gapDates runsSpec
    dsimp only []
    have hstep :
        gapLoop data_frequency none [] (r :: rest) =
          gapLoop data_frequency (some r) ([] ++ [r]) rest := rfl
    rw [hstep, gapLoop_runs data_frequency rest r r [] h2]
    simp

/-- C7: gap-range compression merges each maximal run of missing
timestamps spaced exactly one period delta apart into a single
`[first, last]` pair, starting a new pair at every break, and the raise
policy reports exactly those pairs in the raised `EmptyValuesInBundle`
failure; in particular missing days `{1, 2, 3, 7}` report exactly
`[(1, 3), (7, 7)]`. -/
theorem C7_gap_compression (data_frequency : String) (df : List (DT × Bar))
    (h1 : (df.filter (fun r => r.2.hasNan)).map (fun r => r.1) ≠ [])
    (h2 : GridSorted data_frequency
      ((df.filter (fun r => r.2.hasNan)).map (fun r => r.1))) :
    apply_empty_rows_behavior data_frequency "raise" df =
      .error (.emptyValuesInBundle
        (gapDates data_frequency
          ((df.filter (fun r => r.2.hasNan)).map (fun r => r.1)))) ∧
    toPairs (gapDates data_frequency
        ((df.filter (fun r => r.2.hasNan)).map (fun r => r.1))) =
      runsSpec data_frequency
        ((df.filter (fun r => r.2.hasNan)).map (fun r => r.1)) := by
  constructor
  · unfold apply_empty_rows_behavior
    dsimp only []
    rw [if_pos (by decide), if_pos (List.length_pos.mpr h1),
      if_neg (by decide), if_pos (by decide)]
  · rw [gapDates_runs data_frequency _ h1 h2, toPairs_flattenPairs]

theorem C7_gap_compression_witness :
    apply_empty_rows_behavior "daily" "raise" dfRaise =
      .error (.emptyValuesInBundle
        ([⟨2018, 1, 1, 0, 0⟩, ⟨2018, 1, 3, 0, 0⟩, ⟨2018, 1, 7, 0, 0⟩,
          ⟨2018, 1, 7, 0, 0⟩] : List DT)) ∧
    toPairs ([⟨2018, 1, 1, 0, 0⟩, ⟨2018, 1, 3, 0, 0⟩, ⟨2018, 1, 7, 0, 0⟩,
        ⟨2018, 1, 7, 0, 0⟩] : List DT) =
      [(⟨2018, 1, 1, 0, 0⟩, ⟨2018, 1, 3, 0, 0⟩), (⟨2018, 1, 7, 0, 0⟩, ⟨2018, 1, 7, 0, 0⟩)] := by
  have h := C7_gap_compression "daily" dfRaise (by decide)
    (by
      unfold GridSorted
      show List.Chain' (fun a b => DT.leB (addDelta "daily" a) b = true)
        ([⟨2018, 1, 1, 0, 0⟩, ⟨2018, 1, 2, 0, 0⟩, ⟨2018, 1, 3, 0, 0⟩,
          ⟨2018, 1, 7, 0, 0⟩] : List DT)
      simp only [List.chain'_cons, List.chain'_singleton]
      decide)
  exact ⟨h.1, h.2⟩

end Catalyst
